import Mathlib

/-!
Verification of the `range-expression` library: a shallow embedding of the
`RangeExpr` class family (construction, membership, emptiness, cloning,
iteration, string rendering and literal parsing) together with proofs of the
specified properties.

JavaScript numbers are modelled by `JsNum`: NaN, the two infinities, or an
exact rational.  All bounds handled by the library are `Math.round` images,
hence integral, so the exact-rational model is faithful on every value the
code manipulates.
-/

/-- A JavaScript `number` as the range library uses it: `NaN`, `-Infinity`,
`+Infinity`, or a finite value (modelled as an exact rational). -/
inductive JsNum where
  | nan
  | negInf
  | posInf
  | fin (val : ℚ)
deriving DecidableEq

/-- `Number.isNaN`. -/
def JsNum.isNaN : JsNum → Bool
  | .nan => true
  | _ => false

/-- `Number.isFinite`. -/
def JsNum.isFinite : JsNum → Bool
  | .fin _ => true
  | _ => false

/-- The JavaScript comparison `a <= b`: any comparison with NaN is false,
`-Infinity` is below everything else, `+Infinity` above. -/
def JsNum.le : JsNum → JsNum → Bool
  | .nan, _ => false
  | _, .nan => false
  | .negInf, _ => true
  | _, .negInf => false
  | _, .posInf => true
  | .posInf, _ => false
  | .fin a, .fin b => decide (a ≤ b)

/-- The JavaScript comparison `a < b`. -/
def JsNum.lt : JsNum → JsNum → Bool
  | .nan, _ => false
  | _, .nan => false
  | .negInf, .negInf => false
  | .negInf, _ => true
  | _, .negInf => false
  | .posInf, _ => false
  | _, .posInf => true
  | .fin a, .fin b => decide (a < b)

/-- `x + 1` on JavaScript numbers as used by the constructor: finite values
increment, infinities and NaN absorb. -/
def JsNum.addOne : JsNum → JsNum
  | .fin a => .fin (a + 1)
  | n => n

/-- `x - 1` on JavaScript numbers as used by `toString`. -/
def JsNum.subOne : JsNum → JsNum
  | .fin a => .fin (a - 1)
  | n => n

/-- `Math.round`: nearest integer with halves rounding toward `+Infinity`
(`Math.round(x) = floor(x + 0.5)` for finite `x`); infinities and NaN pass
through unchanged. -/
def jsRound : JsNum → JsNum
  | .fin a => .fin ((⌊a + 1/2⌋ : ℤ) : ℚ)
  | n => n

/-- `Number.MAX_SAFE_INTEGER = 2^53 - 1`. -/
def maxSafeInteger : ℕ := 9007199254740991

/-- `Number.isSafeInteger`: a finite integral value of magnitude at most
`2^53 - 1`. -/
def JsNum.isSafeInteger : JsNum → Bool
  | .fin a => a.den == 1 && decide (a.num.natAbs ≤ maxSafeInteger)
  | _ => false

/-- The state of a constructed `RangeExpr` object: the stored `start`, the
stored `end` (always kept in exclusive form; named `end_` because `end` is a
keyword), and the `inclusive` flag. -/
structure RangeExpr where
  start : JsNum
  end_ : JsNum
  inclusive : Bool
deriving DecidableEq

/-- The `RangeExpr` constructor of `src/src/index.ts`:
`_end = Math.round(end); this.start = Math.round(start);
this.end = inclusive ? _end + 1 : _end; this.inclusive = inclusive`.
This constructor performs no NaN check. -/
def RangeExpr.make (start end_ : JsNum) (inclusive : Bool) : RangeExpr :=
  let e := jsRound end_
  { start := jsRound start
    end_ := if inclusive then e.addOne else e
    inclusive := inclusive }

/-- The `RangeExpr` constructor of the fuller variant (`src/unnamed/part_002`),
which first throws a `RangeError` when either bound is NaN and otherwise
stores exactly what `RangeExpr.make` stores. -/
def RangeExpr.makeChecked (start end_ : JsNum) (inclusive : Bool) :
    Except String RangeExpr :=
  if start.isNaN || end_.isNaN then
    .error "RangeError: NaN does not include in range of correct values"
  else
    .ok (RangeExpr.make start end_ inclusive)

/-- `getBounds()`: the stored `(start, end)` pair. -/
def RangeExpr.getBounds (r : RangeExpr) : JsNum × JsNum := (r.start, r.end_)

/-- `contains(item)` from `src/src/index.ts`: a non-safe-integer query warns
and returns false; otherwise an inclusive range tests
`start <= item && item <= end` against the *stored* (exclusive-form) end,
and an exclusive range tests `start <= item && item < end`. -/
def RangeExpr.contains (r : RangeExpr) (item : JsNum) : Bool :=
  if !item.isSafeInteger then
    false
  else if r.inclusive then
    r.start.le item && item.le r.end_
  else
    r.start.le item && item.lt r.end_

/-- `isEmpty()`: `!(start < end)` on the stored bounds. -/
def RangeExpr.isEmpty (r : RangeExpr) : Bool := !(r.start.lt r.end_)

/-- `clone()`: `new RangeExpr(this.start, this.end)` — the stored bounds are
passed back through the constructor and `inclusive` takes its default
`false`. -/
def RangeExpr.clone (r : RangeExpr) : RangeExpr :=
  RangeExpr.make r.start r.end_ false

/-- The body of the generator `*[Symbol.iterator]()`:
`for (let i = start; i < end; i++) yield i`, for finite bounds (on which the
loop terminates). -/
def loopIter (s e : ℚ) : List ℚ :=
  if h : s < e then s :: loopIter (s + 1) e else []
termination_by (⌈e - s⌉).toNat
decreasing_by
  have h1 : (0 : ℤ) < ⌈e - s⌉ := Int.ceil_pos.mpr (by linarith)
  have h2 : ⌈e - (s + 1)⌉ = ⌈e - s⌉ - 1 := by
    have h3 : e - (s + 1) = (e - s) + ((-1 : ℤ) : ℚ) := by push_cast; ring
    rw [h3, Int.ceil_add_int]; ring
  rw [h2]
  omega

/-- The outcome of running the generator `*[Symbol.iterator]()` to
completion: `some l` when the loop terminates having yielded `l`, `none` when
it loops forever (which happens exactly when `start = -Infinity` with an end
above it, or a finite `start` with `end = +Infinity`). -/
def RangeExpr.iter (r : RangeExpr) : Option (List ℚ) :=
  match r.start, r.end_ with
  | .fin s, .fin e => some (loopIter s e)
  | .nan, _ => some []
  | .posInf, _ => some []
  | _, .nan => some []
  | _, .negInf => some []
  | _, _ => none

/-- A constructed range object together with its `Symbol.iterator` member:
`none` models the subclass field declaration `[Symbol.iterator]: null = null`
(iteration capability absent), `some it` the inherited generator whose
outcome is `it`. -/
structure RangeObject where
  range : RangeExpr
  symbolIterator : Option (Option (List ℚ))
deriving DecidableEq

/-- `new RangeExpr(start, end, inclusive)` seen as an object: the base class
keeps its generator. -/
def RangeExpr.object (s e : JsNum) (i : Bool) : RangeObject :=
  { range := RangeExpr.make s e i
    symbolIterator := some (RangeExpr.make s e i).iter }

/-- `class RangeFromExpr extends RangeExpr { constructor(start) { super(start, Infinity) } [Symbol.iterator]: null = null }`. -/
def RangeFromExpr (s : JsNum) : RangeObject :=
  { range := RangeExpr.make s .posInf false, symbolIterator := none }

/-- `class RangeToExpr`: `super(-Infinity, end)`, iterator member nulled. -/
def RangeToExpr (e : JsNum) : RangeObject :=
  { range := RangeExpr.make .negInf e false, symbolIterator := none }

/-- `class RangeInclusiveExpr`: `super(start, end, true)`, generator kept. -/
def RangeInclusiveExpr (s e : JsNum) : RangeObject :=
  { range := RangeExpr.make s e true
    symbolIterator := some (RangeExpr.make s e true).iter }

/-- `class RangeToInclusiveExpr`: `super(-Infinity, end, true)`, iterator
member nulled. -/
def RangeToInclusiveExpr (e : JsNum) : RangeObject :=
  { range := RangeExpr.make .negInf e true, symbolIterator := none }

/-- `class RangeFullExpr`: `super(-Infinity, Infinity)`, iterator member
nulled. -/
def RangeFullExpr : RangeObject :=
  { range := RangeExpr.make .negInf .posInf false, symbolIterator := none }

/-- The decimal digit character for `n < 10`. -/
def digitChar (n : ℕ) : Char := Char.ofNat (48 + n)

/-- The decimal digit characters of a positive natural number (empty for 0). -/
def natDigits : ℕ → List Char
  | 0 => []
  | n + 1 => natDigits ((n + 1) / 10) ++ [digitChar ((n + 1) % 10)]
decreasing_by exact Nat.div_lt_self (Nat.succ_pos n) (by norm_num)

/-- Decimal rendering of a natural number, as a `${n}` template literal does. -/
def natStr (n : ℕ) : String := if n = 0 then "0" else ⟨natDigits n⟩

/-- Decimal rendering of an integer, as a `${n}` template literal does. -/
def intStr (i : ℤ) : String :=
  if i < 0 then "-" ++ natStr i.natAbs else natStr i.toNat

/-- `${q}` rendering of a finite bound.  Every finite bound the library ever
renders is a `Math.round` image, hence integral (`den = 1`), so rendering the
numerator is the exact JavaScript behaviour on all values that occur. -/
def ratStr (q : ℚ) : String := intStr q.num

/-- `${n}` rendering of a number the code has checked to be finite. -/
def JsNum.render : JsNum → String
  | .fin q => ratStr q
  | _ => ""

/-- `toString()` from `src/src/index.ts`: a non-finite bound renders as the
empty string; an inclusive range displays `this.end - 1` (recovering the end
given at construction) and inserts `=` after the dots. -/
def RangeExpr.toString (r : RangeExpr) : String :=
  let s := if r.start.isFinite then r.start.render else ""
  let e :=
    if r.end_.isFinite then
      if r.inclusive then (r.end_.subOne).render else r.end_.render
    else ""
  let i := if r.inclusive then "=" else ""
  s ++ ".." ++ i ++ e

/-- The numeric value of a decimal digit character. -/
def digitVal (c : Char) : ℕ := c.toNat - 48

/-- `Number(s)` on a digit string: its decimal value (the embedding keeps the
value exact). -/
def digitsVal (cs : List Char) : ℕ := cs.foldl (fun a c => 10 * a + digitVal c) 0

/-- Continuation of a regex attempt after `\.\.` has matched: the optional
`(=?)` group takes a leading `=` when present, then the greedy `(\d+)?` group
takes the maximal digit run. -/
def afterDots (g1 rest : List Char) : Option (List Char × Bool × List Char) :=
  if rest.head? = some '=' then some (g1, true, rest.tail.takeWhile Char.isDigit)
  else some (g1, false, rest.takeWhile Char.isDigit)

/-- One attempt of the regex `(\d+)?\.\.(=?)(\d+)?` at a fixed position: the
greedy `(\d+)?` group is the maximal digit run there, and it must be followed
immediately by `..` (a shorter digit run would leave a digit, not a dot, at
the `\.\.` position, so no backtracking can succeed). -/
def readMatch (cs : List Char) : Option (List Char × Bool × List Char) :=
  let rest := cs.dropWhile Char.isDigit
  if rest.head? = some '.' ∧ rest.tail.head? = some '.' then
    afterDots (cs.takeWhile Char.isDigit) rest.tail.tail
  else none

/-- `String.prototype.match` with the unanchored regex: the leftmost position
whose attempt succeeds wins. -/
def findMatch : List Char → Option (List Char × Bool × List Char)
  | [] => none
  | c :: t =>
    match readMatch (c :: t) with
    | some r => some r
    | none => findMatch t

/-- `RangeExpr.fromString` from the fuller variant (`src/unnamed/part_002`):
when the regex does not match at all, destructuring the `null` match result
throws (modelled as `.error`); otherwise a missing start group becomes
`-Infinity`, a missing end group `+Infinity`, a captured `=` sets
`inclusive`, and the bounds go through the checked constructor. -/
def RangeExpr.fromString (s : String) : Except String RangeExpr :=
  match findMatch s.data with
  | none => .error "TypeError: cannot destructure null match result"
  | some (g1, incl, g3) =>
    let start := if g1.isEmpty then JsNum.negInf else JsNum.fin (digitsVal g1)
    let e := if g3.isEmpty then JsNum.posInf else JsNum.fin (digitsVal g3)
    RangeExpr.makeChecked start e incl

/-- A string matches the pattern `(\d+)?\.\.(=?)(\d+)?` somewhere exactly when
it contains two consecutive dots (all three groups are optional). -/
def hasDots (cs : List Char) : Prop := ∃ l1 l2, cs = l1 ++ '.' :: '.' :: l2

instance {ε α : Type} [DecidableEq ε] [DecidableEq α] : DecidableEq (Except ε α)
  | .error a, .error b =>
    if h : a = b then isTrue (by rw [h])
    else isFalse (by intro hh; injection hh; contradiction)
  | .error _, .ok _ => isFalse (by intro h; exact Except.noConfusion h)
  | .ok _, .error _ => isFalse (by intro h; exact Except.noConfusion h)
  | .ok a, .ok b =>
    if h : a = b then isTrue (by rw [h])
    else isFalse (by intro hh; injection hh; contradiction)

/-! ### Helper lemmas about rounding and the constructor -/

theorem jsRound_intCast (a : ℤ) : jsRound (.fin (a : ℚ)) = .fin (a : ℚ) := by
  show JsNum.fin ((⌊(a : ℚ) + 1/2⌋ : ℤ) : ℚ) = JsNum.fin (a : ℚ)
  rw [Int.floor_int_add, show ⌊(1/2 : ℚ)⌋ = 0 by norm_num, add_zero]

theorem jsRound_natCast (v : ℕ) : jsRound (.fin (v : ℚ)) = .fin (v : ℚ) := by
  have h : ((v : ℤ) : ℚ) = (v : ℚ) := by push_cast; ring
  simpa [h] using jsRound_intCast (v : ℤ)

theorem jsRound_idem (x : JsNum) : jsRound (jsRound x) = jsRound x := by
  cases x with
  | fin a => exact jsRound_intCast _
  | nan => rfl
  | negInf => rfl
  | posInf => rfl

theorem jsRound_addOne_jsRound (x : JsNum) :
    jsRound ((jsRound x).addOne) = (jsRound x).addOne := by
  cases x with
  | fin a =>
    show jsRound (.fin (((⌊a + 1/2⌋ : ℤ) : ℚ) + 1)) = .fin (((⌊a + 1/2⌋ : ℤ) : ℚ) + 1)
    have h : ((⌊a + 1/2⌋ : ℤ) : ℚ) + 1 = ((⌊a + 1/2⌋ + 1 : ℤ) : ℚ) := by push_cast; ring
    rw [h]
    exact jsRound_intCast _
  | nan => rfl
  | negInf => rfl
  | posInf => rfl

theorem make_start (s e : JsNum) (i : Bool) :
    (RangeExpr.make s e i).start = jsRound s := rfl

theorem make_end (s e : JsNum) (i : Bool) :
    (RangeExpr.make s e i).end_ = if i then (jsRound e).addOne else jsRound e := rfl

theorem make_inclusive (s e : JsNum) (i : Bool) :
    (RangeExpr.make s e i).inclusive = i := rfl

theorem le_fin_fin (x y : ℚ) : (JsNum.fin x).le (.fin y) = decide (x ≤ y) := rfl

theorem lt_fin_fin (x y : ℚ) : (JsNum.fin x).lt (.fin y) = decide (x < y) := rfl

theorem render_intCast (a : ℤ) : (JsNum.fin (a : ℚ)).render = intStr a := by
  show ratStr (a : ℚ) = intStr a
  unfold ratStr
  rw [Rat.num_intCast]

/-! ### The claims -/

/-- C1: the spec requires that an inclusive range contain exactly the items
`start <= item <= end_original`, so `Range(2,4,inclusive=true)` must contain
`4` and nothing above it.  The code does report `4` as contained, but it also
reports `5`: the inclusive branch of `contains` compares against the stored
exclusive end `end_original + 1`, the exact off-by-one the spec forbids. -/
theorem contains_inclusive_off_by_one :
    (RangeExpr.make (.fin (2:ℚ)) (.fin (4:ℚ)) true).contains (.fin (4:ℚ)) = true
    ∧ (RangeExpr.make (.fin (2:ℚ)) (.fin (4:ℚ)) true).contains (.fin (5:ℚ)) = true := by
  with_unfolding_all decide

/-- C2 (counterexample): `Range(1,2,inclusive=true)` stores the exclusive end
`3` and therefore displays `3 - 1 = 2`, rendering `"1..=2"`, not the `"1..=1"`
the claim asserts. -/
theorem toString_inclusive_example_counter :
    (RangeExpr.make (.fin (1:ℚ)) (.fin (2:ℚ)) true).toString = "1..=2"
    ∧ (RangeExpr.make (.fin (1:ℚ)) (.fin (2:ℚ)) true).toString ≠ "1..=1" := by
  with_unfolding_all decide

/-- C2 (amended): `toString` renders `"{start}..{'='if inclusive}{displayed_end}"`
with `displayed_end` one less than the stored exclusive end for an inclusive
range, which is exactly the end given at construction; so `Range(1,2)` renders
`"1..2"` and `Range(1,2,inclusive=true)` renders `"1..=2"`. -/
theorem toString_displays_construction_end :
    (∀ (a b : ℤ) (i : Bool),
      (RangeExpr.make (.fin (a:ℚ)) (.fin (b:ℚ)) i).toString
        = intStr a ++ ".." ++ (if i then "=" else "") ++ intStr b)
    ∧ (RangeExpr.make (.fin (1:ℚ)) (.fin (2:ℚ)) false).toString = "1..2"
    ∧ (RangeExpr.make (.fin (1:ℚ)) (.fin (2:ℚ)) true).toString = "1..=2" := by
  refine ⟨?_, by with_unfolding_all decide, by with_unfolding_all decide⟩
  intro a b i
  have h1 : (RangeExpr.make (.fin (a:ℚ)) (.fin (b:ℚ)) i).start = .fin ((a:ℤ):ℚ) := by
    rw [make_start, jsRound_intCast]
  cases i with
  | false =>
    have h2 : (RangeExpr.make (.fin (a:ℚ)) (.fin (b:ℚ)) false).end_
        = .fin ((b:ℤ):ℚ) := by
      rw [make_end, if_neg (by simp), jsRound_intCast]
    simp [RangeExpr.toString, h1, h2, make_inclusive, JsNum.isFinite,
      render_intCast]
  | true =>
    have h2 : (RangeExpr.make (.fin (a:ℚ)) (.fin (b:ℚ)) true).end_
        = .fin ((b:ℚ) + 1) := by
      rw [make_end, if_pos rfl, jsRound_intCast]
      rfl
    have hsub : (JsNum.fin ((b:ℚ) + 1)).subOne = JsNum.fin ((b:ℤ):ℚ) := by
      show JsNum.fin ((b:ℚ) + 1 - 1) = JsNum.fin ((b:ℤ):ℚ)
      norm_num
    simp [RangeExpr.toString, h1, h2, make_inclusive, JsNum.isFinite,
      hsub, render_intCast]

/-- C3 (counterexample): the constructor in `src/src/index.ts` performs no NaN
check; `new RangeExpr(NaN, 5)` completes and yields a fully-built range whose
stored start is NaN, so construction with a NaN bound does not raise there. -/
theorem make_nan_builds_object :
    (RangeExpr.make .nan (.fin (5:ℚ)) false).start = .nan
    ∧ (RangeExpr.make .nan (.fin (5:ℚ)) false).end_ = .fin (5:ℚ) := by
  with_unfolding_all decide

/-- C3 (amended): the constructor of the fuller variant (`part_002`) raises a
`RangeError` whenever either bound is NaN, and no range object is produced. -/
theorem makeChecked_nan_errors (s e : JsNum) (i : Bool)
    (h : (s.isNaN || e.isNaN) = true) :
    ∃ msg, RangeExpr.makeChecked s e i = .error msg := by
  unfold RangeExpr.makeChecked
  rw [if_pos h]
  exact ⟨_, rfl⟩

theorem makeChecked_nan_errors_witness :
    (JsNum.nan.isNaN || (JsNum.fin (5:ℚ)).isNaN) = true
    ∧ ∃ msg, RangeExpr.makeChecked .nan (.fin (5:ℚ)) false = .error msg :=
  ⟨by decide, makeChecked_nan_errors _ _ _ (by decide)⟩

/-- C5: `isEmpty` is `!(start < end)` on the stored bounds; consequently for
integers the exclusive range `Range(a,b)` is empty iff `a >= b`, the inclusive
`Range(a,b,true)` is empty iff `a > b`, and an inclusive single-point range is
non-empty. -/
theorem isEmpty_iff_not_start_lt_storedEnd (a b : ℤ) :
    (∀ r : RangeExpr, r.isEmpty = !(r.start.lt r.end_))
    ∧ (RangeExpr.make (.fin (a:ℚ)) (.fin (b:ℚ)) false).isEmpty = decide (a ≥ b)
    ∧ (RangeExpr.make (.fin (a:ℚ)) (.fin (b:ℚ)) true).isEmpty = decide (a > b)
    ∧ (RangeExpr.make (.fin (a:ℚ)) (.fin (a:ℚ)) true).isEmpty = false := by
  refine ⟨fun _ => rfl, ?_, ?_, ?_⟩
  · simp only [RangeExpr.isEmpty, make_start, make_end, jsRound_intCast,
      if_false, Bool.false_eq_true, lt_fin_fin, Int.cast_lt]
    rw [← decide_not]
    exact decide_eq_decide.mpr (by omega)
  · have haddone : (JsNum.fin ((b:ℚ))).addOne = JsNum.fin ((b:ℚ) + 1) := rfl
    simp only [RangeExpr.isEmpty, make_start, make_end, jsRound_intCast,
      if_true, haddone, lt_fin_fin]
    rw [← decide_not]
    refine decide_eq_decide.mpr ?_
    have hcast : ((a:ℚ) < (b:ℚ) + 1) ↔ ((a:ℤ) < b + 1) := by
      rw [show ((b:ℚ) + 1) = (((b + 1 : ℤ)):ℚ) by push_cast; ring]
      exact Int.cast_lt
    rw [hcast]
    omega
  · have haddone : (JsNum.fin ((a:ℚ))).addOne = JsNum.fin ((a:ℚ) + 1) := rfl
    simp only [RangeExpr.isEmpty, make_start, make_end, jsRound_intCast,
      if_true, haddone, lt_fin_fin]
    have : ((a:ℚ) < (a:ℚ) + 1) := by linarith
    simp [this]

/-- C8: the unbounded variants null out their `Symbol.iterator` member, so the
iteration capability is absent on them, while the base bounded range and the
inclusive variant keep the inherited generator. -/
theorem unbounded_variants_lack_iteration (s e : JsNum) (i : Bool) :
    (RangeFromExpr s).symbolIterator = none
    ∧ (RangeToExpr e).symbolIterator = none
    ∧ RangeFullExpr.symbolIterator = none
    ∧ (RangeToInclusiveExpr e).symbolIterator = none
    ∧ (RangeInclusiveExpr s e).symbolIterator.isSome = true
    ∧ (RangeExpr.object s e i).symbolIterator.isSome = true :=
  ⟨rfl, rfl, rfl, rfl, rfl, rfl⟩

/-- C9: `clone()` passes the stored bounds back through the constructor with
`inclusive` defaulted to `false`: the clone's stored bounds equal the
original's (rounding is idempotent), its `inclusive` flag is `false`, and
`getBounds`, `isEmpty` and the iteration outcome coincide with the
original's. -/
theorem clone_copies_stored_bounds_drops_inclusive (s e : JsNum) (i : Bool) :
    ((RangeExpr.make s e i).clone).start = (RangeExpr.make s e i).start
    ∧ ((RangeExpr.make s e i).clone).end_ = (RangeExpr.make s e i).end_
    ∧ ((RangeExpr.make s e i).clone).inclusive = false
    ∧ ((RangeExpr.make s e i).clone).getBounds = (RangeExpr.make s e i).getBounds
    ∧ ((RangeExpr.make s e i).clone).isEmpty = (RangeExpr.make s e i).isEmpty
    ∧ ((RangeExpr.make s e i).clone).iter = (RangeExpr.make s e i).iter := by
  have hs : ((RangeExpr.make s e i).clone).start = (RangeExpr.make s e i).start := by
    simp only [RangeExpr.clone, make_start, jsRound_idem]
  have he : ((RangeExpr.make s e i).clone).end_ = (RangeExpr.make s e i).end_ := by
    simp only [RangeExpr.clone, make_end, if_false, Bool.false_eq_true]
    cases i with
    | false => simp [jsRound_idem]
    | true => simp [jsRound_addOne_jsRound]
  refine ⟨hs, he, rfl, ?_, ?_, ?_⟩
  · simp [RangeExpr.getBounds, hs, he]
  · simp [RangeExpr.isEmpty, hs, he]
  · unfold RangeExpr.iter
    rw [hs, he]

/-- C10: membership behaves correctly at infinite bounds: every safe-integer
query is contained in the full range, and a from-range with a finite bound
contains a safe integer exactly when its rounded start is at most the query;
the stored infinities take part in the comparisons without error. -/
theorem contains_at_infinite_bounds (n : ℤ) (a : ℚ)
    (h : n.natAbs ≤ maxSafeInteger) :
    RangeFullExpr.range.contains (.fin (n : ℚ)) = true
    ∧ (RangeFromExpr (.fin a)).range.contains (.fin (n : ℚ))
        = decide (⌊a + 1/2⌋ ≤ n) := by
  have hsafe : (JsNum.fin (n : ℚ)).isSafeInteger = true := by
    show (((n:ℚ).den == 1) && decide ((n:ℚ).num.natAbs ≤ maxSafeInteger)) = true
    rw [Rat.den_intCast, Rat.num_intCast]
    simp [h]
  constructor
  · show (RangeExpr.make .negInf .posInf false).contains (.fin (n : ℚ)) = true
    simp [RangeExpr.contains, hsafe, RangeExpr.make, jsRound, JsNum.le, JsNum.lt]
  · show (RangeExpr.make (.fin a) .posInf false).contains (.fin (n : ℚ)) = _
    have hstart : (RangeExpr.make (.fin a) .posInf false).start
        = .fin ((⌊a + 1/2⌋ : ℤ) : ℚ) := rfl
    have hend : (RangeExpr.make (.fin a) .posInf false).end_ = .posInf := rfl
    simp only [RangeExpr.contains, hsafe, Bool.not_true, if_false,
      Bool.false_eq_true, make_inclusive, hstart, hend, le_fin_fin]
    rw [show (JsNum.fin (n:ℚ)).lt .posInf = true from rfl, Bool.and_true]
    exact decide_eq_decide.mpr Int.cast_le

theorem contains_at_infinite_bounds_witness :
    ((3:ℤ).natAbs ≤ maxSafeInteger)
    ∧ (RangeFullExpr.range.contains (.fin ((3:ℤ) : ℚ)) = true
       ∧ (RangeFromExpr (.fin (7/2 : ℚ))).range.contains (.fin ((3:ℤ) : ℚ))
           = decide (⌊(7/2 : ℚ) + 1/2⌋ ≤ (3:ℤ))) :=
  ⟨by decide, contains_at_infinite_bounds 3 (7/2) (by decide)⟩

/-! ### The iteration loop -/

theorem loopIter_range (n : ℕ) : ∀ s : ℚ,
    loopIter s (s + n) = (List.range n).map (fun k : ℕ => s + (k : ℚ)) := by
  induction n with
  | zero =>
    intro s
    rw [loopIter]
    simp
  | succ n ih =>
    intro s
    rw [loopIter]
    have hlt : s < s + ((n + 1 : ℕ) : ℚ) := by push_cast; linarith
    rw [dif_pos hlt]
    have he : s + ((n + 1 : ℕ) : ℚ) = (s + 1) + (n : ℚ) := by push_cast; ring
    rw [he, ih (s + 1), List.range_succ_eq_map, List.map_cons, List.map_map]
    have hz : s + ((0 : ℕ) : ℚ) = s := by push_cast; ring
    rw [hz]
    congr 1
    refine List.map_congr_left ?_
    intro x _
    show s + 1 + (x : ℚ) = s + ((x.succ : ℕ) : ℚ)
    push_cast
    ring

/-- C6: iterating a bounded range yields exactly the consecutive integers
from `start` up to the stored exclusive end (excluded): `Range(a,b)` yields
`[a, …, b-1]` and `Range(a,b,inclusive=true)` yields `[a, …, b]`.  The
generator is a pure function of the stored bounds, so every iteration request
produces the same finite ascending sequence. -/
theorem iter_yields_consecutive_integers (a b : ℤ) (h : a < b) :
    (RangeExpr.make (.fin (a:ℚ)) (.fin (b:ℚ)) false).iter
      = some ((List.range (b - a).toNat).map (fun k : ℕ => (a:ℚ) + (k : ℚ)))
    ∧ (RangeExpr.make (.fin (a:ℚ)) (.fin (b:ℚ)) true).iter
      = some ((List.range (b + 1 - a).toNat).map (fun k : ℕ => (a:ℚ) + (k : ℚ))) := by
  constructor
  · have hstart : (RangeExpr.make (.fin (a:ℚ)) (.fin (b:ℚ)) false).start
        = .fin ((a:ℤ):ℚ) := by rw [make_start, jsRound_intCast]
    have hend : (RangeExpr.make (.fin (a:ℚ)) (.fin (b:ℚ)) false).end_
        = .fin ((b:ℤ):ℚ) := by
      rw [make_end, if_neg (by simp), jsRound_intCast]
    unfold RangeExpr.iter
    rw [hstart, hend]
    show some (loopIter ((a:ℤ):ℚ) ((b:ℤ):ℚ)) = _
    have hb : ((b:ℤ):ℚ) = ((a:ℤ):ℚ) + (((b - a).toNat : ℕ) : ℚ) := by
      have h0 : (((b - a).toNat : ℕ) : ℤ) = b - a := Int.toNat_of_nonneg (by omega)
      have h1 : (((b - a).toNat : ℕ) : ℚ) = ((b - a : ℤ) : ℚ) := by
        exact_mod_cast congrArg (fun z : ℤ => (z : ℚ)) h0
      rw [h1]
      push_cast
      ring
    rw [hb, loopIter_range]
  · have hstart : (RangeExpr.make (.fin (a:ℚ)) (.fin (b:ℚ)) true).start
        = .fin ((a:ℤ):ℚ) := by rw [make_start, jsRound_intCast]
    have hend : (RangeExpr.make (.fin (a:ℚ)) (.fin (b:ℚ)) true).end_
        = .fin ((b:ℚ) + 1) := by
      rw [make_end, if_pos rfl, jsRound_intCast]
      rfl
    unfold RangeExpr.iter
    rw [hstart, hend]
    show some (loopIter ((a:ℤ):ℚ) ((b:ℚ) + 1)) = _
    have hb : ((b:ℚ) + 1) = ((a:ℤ):ℚ) + (((b + 1 - a).toNat : ℕ) : ℚ) := by
      have h0 : (((b + 1 - a).toNat : ℕ) : ℤ) = b + 1 - a := Int.toNat_of_nonneg (by omega)
      have h1 : (((b + 1 - a).toNat : ℕ) : ℚ) = ((b + 1 - a : ℤ) : ℚ) := by
        exact_mod_cast congrArg (fun z : ℤ => (z : ℚ)) h0
      rw [h1]
      push_cast
      ring
    rw [hb, loopIter_range]

theorem iter_yields_consecutive_integers_witness :
    ((0:ℤ) < 2)
    ∧ ((RangeExpr.make (.fin ((0:ℤ):ℚ)) (.fin ((2:ℤ):ℚ)) false).iter
        = some ((List.range ((2:ℤ) - 0).toNat).map (fun k : ℕ => (((0:ℤ)):ℚ) + (k : ℚ)))
      ∧ (RangeExpr.make (.fin ((0:ℤ):ℚ)) (.fin ((2:ℤ):ℚ)) true).iter
        = some ((List.range ((2:ℤ) + 1 - 0).toNat).map (fun k : ℕ => (((0:ℤ)):ℚ) + (k : ℚ)))) :=
  ⟨by decide, iter_yields_consecutive_integers 0 2 (by decide)⟩

/-! ### Digit strings -/

theorem digitChar_isDigit (d : ℕ) (h : d < 10) : (digitChar d).isDigit = true := by
  interval_cases d <;> decide

theorem digitVal_digitChar (d : ℕ) (h : d < 10) : digitVal (digitChar d) = d := by
  interval_cases d <;> decide

theorem natDigits_digits (n : ℕ) : ∀ c ∈ natDigits n, c.isDigit = true := by
  induction n using Nat.strong_induction_on with
  | _ n ih =>
    match n with
    | 0 => simp [natDigits]
    | m + 1 =>
      intro c hc
      rw [natDigits] at hc
      rcases List.mem_append.mp hc with h1 | h2
      · exact ih ((m + 1) / 10) (Nat.div_lt_self (Nat.succ_pos m) (by norm_num)) c h1
      · rw [List.mem_singleton.mp h2]
        exact digitChar_isDigit _ (Nat.mod_lt _ (by norm_num))

theorem digitsVal_append_singleton (l : List Char) (c : Char) :
    digitsVal (l ++ [c]) = 10 * digitsVal l + digitVal c := by
  unfold digitsVal
  rw [List.foldl_append]
  rfl

theorem digitsVal_natDigits (n : ℕ) : digitsVal (natDigits n) = n := by
  induction n using Nat.strong_induction_on with
  | _ n ih =>
    match n with
    | 0 =>
      rw [natDigits]
      rfl
    | m + 1 =>
      rw [natDigits, digitsVal_append_singleton,
        ih ((m + 1) / 10) (Nat.div_lt_self (Nat.succ_pos m) (by norm_num)),
        digitVal_digitChar _ (Nat.mod_lt _ (by norm_num))]
      omega

theorem natStr_data_digits (v : ℕ) : ∀ c ∈ (natStr v).data, c.isDigit = true := by
  unfold natStr
  split
  · intro c hc
    rw [show ("0").data = ['0'] from rfl, List.mem_singleton] at hc
    rw [hc]
    decide
  · exact natDigits_digits v

theorem digitsVal_natStr (v : ℕ) : digitsVal (natStr v).data = v := by
  unfold natStr
  split
  · rename_i h
    rw [h]
    decide
  · exact digitsVal_natDigits v

theorem natStr_data_ne_nil (v : ℕ) : (natStr v).data ≠ [] := by
  unfold natStr
  split
  · decide
  · rename_i h
    match v, h with
    | m + 1, _ =>
      rw [natDigits]
      simp

theorem render_natCast (v : ℕ) : (JsNum.fin ((v:ℕ) : ℚ)).render = natStr v := by
  show ratStr ((v:ℕ) : ℚ) = natStr v
  unfold ratStr intStr
  rw [Rat.num_natCast]
  rw [if_neg (by exact_mod_cast Nat.not_lt_zero v)]
  rw [Int.toNat_natCast]

/-! ### The regex attempt -/

theorem takeWhile_digits_append (ds r : List Char)
    (hd : ∀ c ∈ ds, c.isDigit = true) :
    (ds ++ '.' :: r).takeWhile Char.isDigit = ds := by
  induction ds with
  | nil =>
    rw [List.nil_append, List.takeWhile_cons]
    rw [if_neg (by decide)]
  | cons d ds ih =>
    rw [List.cons_append, List.takeWhile_cons,
      if_pos (hd d (List.mem_cons_self _ _))]
    rw [ih (fun c hc => hd c (List.mem_cons_of_mem _ hc))]

theorem dropWhile_digits_append (ds r : List Char)
    (hd : ∀ c ∈ ds, c.isDigit = true) :
    (ds ++ '.' :: r).dropWhile Char.isDigit = '.' :: r := by
  induction ds with
  | nil =>
    rw [List.nil_append, List.dropWhile_cons]
    rw [if_neg (by decide)]
  | cons d ds ih =>
    rw [List.cons_append, List.dropWhile_cons,
      if_pos (hd d (List.mem_cons_self _ _))]
    exact ih (fun c hc => hd c (List.mem_cons_of_mem _ hc))

theorem takeWhile_all_digits (l : List Char)
    (h : ∀ c ∈ l, c.isDigit = true) :
    l.takeWhile Char.isDigit = l := by
  induction l with
  | nil => rfl
  | cons c t ih =>
    rw [List.takeWhile_cons, if_pos (h c (List.mem_cons_self _ _))]
    rw [ih (fun x hx => h x (List.mem_cons_of_mem _ hx))]

theorem afterDots_digits_rest (g1 rest : List Char)
    (hd : ∀ c ∈ rest, c.isDigit = true) :
    afterDots g1 rest = some (g1, false, rest) := by
  unfold afterDots
  rw [if_neg]
  · rw [takeWhile_all_digits rest hd]
  · cases rest with
    | nil => simp
    | cons c t =>
      simp only [List.head?_cons, Option.some_inj]
      intro h
      have := hd c (List.mem_cons_self _ _)
      rw [h] at this
      exact absurd this (by decide)

theorem afterDots_eq_marker (g1 g3 : List Char)
    (h3 : ∀ c ∈ g3, c.isDigit = true) :
    afterDots g1 ('=' :: g3) = some (g1, true, g3) := by
  unfold afterDots
  rw [if_pos (by simp)]
  simp only [List.tail_cons]
  rw [takeWhile_all_digits g3 h3]

/-- The successful regex attempt at the head of a literal of the shape
`digits ++ ".." ++ optional "=" ++ digits`. -/
theorem readMatch_literal (d1 d3 : List Char) (i : Bool)
    (h1 : ∀ c ∈ d1, c.isDigit = true) (h3 : ∀ c ∈ d3, c.isDigit = true) :
    readMatch (d1 ++ '.' :: '.' :: ((if i then ['='] else []) ++ d3))
      = some (d1, i, d3) := by
  unfold readMatch
  rw [dropWhile_digits_append d1 _ h1, takeWhile_digits_append d1 _ h1]
  rw [if_pos (by simp)]
  show afterDots d1 ((if i then ['='] else []) ++ d3) = some (d1, i, d3)
  cases i with
  | false =>
    rw [if_neg (by simp), List.nil_append]
    exact afterDots_digits_rest d1 d3 h3
  | true =>
    rw [if_pos rfl, List.cons_append, List.nil_append]
    exact afterDots_eq_marker d1 d3 h3

theorem findMatch_head (cs : List Char) (r : List Char × Bool × List Char)
    (hne : cs ≠ []) (h : readMatch cs = some r) : findMatch cs = some r := by
  cases cs with
  | nil => exact absurd rfl hne
  | cons c t =>
    unfold findMatch
    rw [h]

theorem afterDots_isSome (g1 rest : List Char) :
    (afterDots g1 rest).isSome = true := by
  unfold afterDots
  split <;> rfl

theorem readMatch_some_hasDots (cs : List Char) (r : List Char × Bool × List Char)
    (h : readMatch cs = some r) : hasDots cs := by
  unfold readMatch at h
  by_cases hc : (cs.dropWhile Char.isDigit).head? = some '.'
      ∧ (cs.dropWhile Char.isDigit).tail.head? = some '.'
  · obtain ⟨hc1, hc2⟩ := hc
    cases hdw : cs.dropWhile Char.isDigit with
    | nil => rw [hdw] at hc1; exact absurd hc1 (by simp)
    | cons c1 t1 =>
      cases t1 with
      | nil =>
        rw [hdw] at hc2
        exact absurd hc2 (by simp)
      | cons c2 t2 =>
        rw [hdw] at hc1 hc2
        simp only [List.head?_cons, Option.some_inj, List.tail_cons] at hc1 hc2
        refine ⟨cs.takeWhile Char.isDigit, t2, ?_⟩
        conv_lhs => rw [← List.takeWhile_append_dropWhile (p := Char.isDigit) (l := cs)]
        rw [hdw, hc1, hc2]
  · rw [if_neg hc] at h
    exact absurd h (by simp)

theorem findMatch_some_hasDots :
    ∀ (cs : List Char) (r : List Char × Bool × List Char),
      findMatch cs = some r → hasDots cs := by
  intro cs
  induction cs with
  | nil =>
    intro r h
    exact absurd h (by simp [findMatch])
  | cons c t ih =>
    intro r h
    unfold findMatch at h
    cases hm : readMatch (c :: t) with
    | some r2 => exact readMatch_some_hasDots _ _ hm
    | none =>
      rw [hm] at h
      obtain ⟨l1, l2, he⟩ := ih r h
      exact ⟨c :: l1, l2, by rw [List.cons_append, he]⟩

theorem hasDots_findMatch_isSome :
    ∀ cs : List Char, hasDots cs → (findMatch cs).isSome = true := by
  intro cs
  induction cs with
  | nil =>
    rintro ⟨l1, l2, he⟩
    cases l1 <;> simp at he
  | cons c t ih =>
    intro h
    unfold findMatch
    cases hm : readMatch (c :: t) with
    | some r => rfl
    | none =>
      show (findMatch t).isSome = true
      apply ih
      obtain ⟨l1, l2, he⟩ := h
      cases l1 with
      | cons x l1' =>
        rw [List.cons_append] at he
        injection he with h1 h2
        exact ⟨l1', l2, h2⟩
      | nil =>
        exfalso
        rw [List.nil_append] at he
        have hd : List.dropWhile Char.isDigit ('.' :: '.' :: l2) = '.' :: '.' :: l2 := by
          rw [List.dropWhile_cons]
          rw [if_neg (by decide : ¬(('.' : Char).isDigit = true))]
        have ht : List.takeWhile Char.isDigit ('.' :: '.' :: l2) = [] := by
          rw [List.takeWhile_cons]
          rw [if_neg (by decide : ¬(('.' : Char).isDigit = true))]
        have hrm : readMatch (c :: t) = afterDots [] l2 := by
          rw [he]
          show (if (List.dropWhile Char.isDigit ('.' :: '.' :: l2)).head? = some '.'
              ∧ (List.dropWhile Char.isDigit ('.' :: '.' :: l2)).tail.head? = some '.' then
              afterDots (List.takeWhile Char.isDigit ('.' :: '.' :: l2))
                (List.dropWhile Char.isDigit ('.' :: '.' :: l2)).tail.tail
            else none) = afterDots [] l2
          rw [hd, ht, if_pos (by simp)]
          rfl
        have hsome := afterDots_isSome ([] : List Char) l2
        rw [← hrm, hm] at hsome
        exact absurd hsome (by decide)

theorem findMatch_none_iff (cs : List Char) :
    findMatch cs = none ↔ ¬ hasDots cs := by
  constructor
  · intro h hd
    have hs := hasDots_findMatch_isSome cs hd
    rw [h] at hs
    exact absurd hs (by decide)
  · intro h
    cases hm : findMatch cs with
    | none => rfl
    | some r => exact absurd (findMatch_some_hasDots cs r hm) h

theorem makeChecked_ok (s e : JsNum) (i : Bool)
    (hs : s.isNaN = false) (he : e.isNaN = false) :
    RangeExpr.makeChecked s e i = .ok (RangeExpr.make s e i) := by
  unfold RangeExpr.makeChecked
  rw [hs, he]
  rfl

theorem parsed_start_not_nan (b : Bool) (v : ℕ) :
    (if b then JsNum.negInf else JsNum.fin ((v : ℕ) : ℚ)).isNaN = false := by
  cases b <;> rfl

theorem parsed_end_not_nan (b : Bool) (v : ℕ) :
    (if b then JsNum.posInf else JsNum.fin ((v : ℕ) : ℚ)).isNaN = false := by
  cases b <;> rfl

theorem fromString_eq_of_findMatch (s : String) (g1 : List Char) (i : Bool)
    (g3 : List Char) (hm : findMatch s.data = some (g1, i, g3)) :
    RangeExpr.fromString s
      = .ok (RangeExpr.make
          (if g1.isEmpty then .negInf else .fin ((digitsVal g1 : ℕ) : ℚ))
          (if g3.isEmpty then .posInf else .fin ((digitsVal g3 : ℕ) : ℚ)) i) := by
  unfold RangeExpr.fromString
  rw [hm]
  exact makeChecked_ok _ _ _ (parsed_start_not_nan _ _) (parsed_end_not_nan _ _)

/-- C4: `fromString` fails exactly when the text matches the grammar
`(\d+)?\.\.(=?)(\d+)?` nowhere — equivalently, when the text contains no
`".."` (all three groups are optional) — and on a match it builds the range
from the matched groups: a missing start group becomes `-Infinity`, a missing
end group `+Infinity`, and a captured `=` sets `inclusive`. -/
theorem fromString_grammar (s : String) :
    ((∃ msg, RangeExpr.fromString s = .error msg) ↔ ¬ hasDots s.data)
    ∧ (∀ g1 (i : Bool) g3, findMatch s.data = some (g1, i, g3) →
        RangeExpr.fromString s
          = .ok (RangeExpr.make
              (if g1.isEmpty then .negInf else .fin ((digitsVal g1 : ℕ) : ℚ))
              (if g3.isEmpty then .posInf else .fin ((digitsVal g3 : ℕ) : ℚ)) i)) := by
  have hok := fun g1 i g3 hm => fromString_eq_of_findMatch s g1 i g3 hm
  refine ⟨?_, hok⟩
  cases hm : findMatch s.data with
  | none =>
    constructor
    · intro _
      exact (findMatch_none_iff _).mp hm
    · intro _
      refine ⟨"TypeError: cannot destructure null match result", ?_⟩
      unfold RangeExpr.fromString
      rw [hm]
  | some g =>
    obtain ⟨g1, i, g3⟩ := g
    constructor
    · rintro ⟨msg, hmsg⟩
      rw [hok g1 i g3 hm] at hmsg
      exact Except.noConfusion hmsg
    · intro hnd
      exact absurd (findMatch_some_hasDots _ _ hm) hnd

theorem fromString_grammar_witness :
    findMatch ("1..=2").data = some (['1'], true, ['2'])
    ∧ RangeExpr.fromString "1..=2"
        = .ok (RangeExpr.make
            (if (['1'] : List Char).isEmpty then .negInf
             else .fin ((digitsVal ['1'] : ℕ) : ℚ))
            (if (['2'] : List Char).isEmpty then .posInf
             else .fin ((digitsVal ['2'] : ℕ) : ℚ)) true) :=
  ⟨by with_unfolding_all decide,
   (fromString_grammar "1..=2").2 ['1'] true ['2'] (by with_unfolding_all decide)⟩

/-! ### Round-tripping a parsed literal through toString -/

theorem jsRound_negInf : jsRound .negInf = .negInf := rfl

theorem jsRound_posInf : jsRound .posInf = .posInf := rfl

theorem addOne_posInf : JsNum.addOne .posInf = .posInf := rfl

theorem addOne_fin (x : ℚ) : (JsNum.fin x).addOne = .fin (x + 1) := rfl

theorem subOne_fin (x : ℚ) : (JsNum.fin x).subOne = .fin (x - 1) := rfl

theorem isFinite_fin (x : ℚ) : (JsNum.fin x).isFinite = true := rfl

theorem isFinite_negInf : (JsNum.negInf).isFinite = false := rfl

theorem isFinite_posInf : (JsNum.posInf).isFinite = false := rfl

/-- `toString` of a range built from parsed bounds: infinities render empty,
finite bounds render their decimal value (the inclusive display subtracts the
1 the constructor added). -/
theorem toString_parsed (b1 b3 : Bool) (v1 v3 : ℕ) (i : Bool) :
    (RangeExpr.make (if b1 then .negInf else .fin ((v1 : ℕ) : ℚ))
        (if b3 then .posInf else .fin ((v3 : ℕ) : ℚ)) i).toString
      = (if b1 then "" else natStr v1) ++ ".." ++ (if i then "=" else "")
          ++ (if b3 then "" else natStr v3) := by
  have hsub : (JsNum.fin (((v3 : ℕ) : ℚ) + 1)).subOne = .fin ((v3 : ℕ) : ℚ) := by
    rw [subOne_fin, add_sub_cancel_right]
  cases b1 <;> cases b3 <;> cases i <;>
    simp [RangeExpr.toString, make_start, make_end, make_inclusive,
      jsRound_natCast, jsRound_negInf, jsRound_posInf, addOne_posInf,
      addOne_fin, hsub, isFinite_fin, isFinite_negInf, isFinite_posInf,
      render_natCast]

/-- The character data of a rendered literal, in the shape `readMatch`
consumes. -/
theorem toString_parsed_data (b1 b3 : Bool) (v1 v3 : ℕ) (i : Bool) :
    ((if b1 then "" else natStr v1) ++ ".." ++ (if i then "=" else "")
        ++ (if b3 then "" else natStr v3)).data
      = (if b1 then [] else (natStr v1).data)
          ++ '.' :: '.' :: ((if i then ['='] else [])
          ++ (if b3 then [] else (natStr v3).data)) := by
  rw [String.data_append, String.data_append, String.data_append]
  cases b1 <;> cases b3 <;> cases i <;> simp

theorem roundTrip_core (b1 b3 : Bool) (v1 v3 : ℕ) (i : Bool) :
    RangeExpr.fromString
        ((RangeExpr.make (if b1 then .negInf else .fin ((v1 : ℕ) : ℚ))
            (if b3 then .posInf else .fin ((v3 : ℕ) : ℚ)) i).toString)
      = .ok (RangeExpr.make (if b1 then .negInf else .fin ((v1 : ℕ) : ℚ))
            (if b3 then .posInf else .fin ((v3 : ℕ) : ℚ)) i) := by
  have hd1 : ∀ c ∈ (if b1 then [] else (natStr v1).data), c.isDigit = true := by
    cases b1
    · simpa using natStr_data_digits v1
    · simp
  have hd3 : ∀ c ∈ (if b3 then [] else (natStr v3).data), c.isDigit = true := by
    cases b3
    · simpa using natStr_data_digits v3
    · simp
  have hdata : ((RangeExpr.make (if b1 then .negInf else .fin ((v1 : ℕ) : ℚ))
      (if b3 then .posInf else .fin ((v3 : ℕ) : ℚ)) i).toString).data
      = (if b1 then [] else (natStr v1).data)
          ++ '.' :: '.' :: ((if i then ['='] else [])
          ++ (if b3 then [] else (natStr v3).data)) := by
    rw [toString_parsed, toString_parsed_data]
  have hrm := readMatch_literal (if b1 then [] else (natStr v1).data)
    (if b3 then [] else (natStr v3).data) i hd1 hd3
  have hne : (if b1 then [] else (natStr v1).data)
      ++ '.' :: '.' :: ((if i then ['='] else [])
      ++ (if b3 then [] else (natStr v3).data)) ≠ [] := by
    cases hb : (if b1 then ([] : List Char) else (natStr v1).data) <;> simp
  have hfm := findMatch_head _ _ hne hrm
  have hmain := fromString_eq_of_findMatch
    ((RangeExpr.make (if b1 then .negInf else .fin ((v1 : ℕ) : ℚ))
        (if b3 then .posInf else .fin ((v3 : ℕ) : ℚ)) i).toString)
    (if b1 then [] else (natStr v1).data) i
    (if b3 then [] else (natStr v3).data)
    (by rw [hdata]; exact hfm)
  rw [hmain]
  have harg1 : (if (if b1 then [] else (natStr v1).data).isEmpty then JsNum.negInf
      else .fin ((digitsVal (if b1 then [] else (natStr v1).data) : ℕ) : ℚ))
      = (if b1 then JsNum.negInf else .fin ((v1 : ℕ) : ℚ)) := by
    cases b1
    · have hne1 : (natStr v1).data ≠ [] := natStr_data_ne_nil v1
      simp only [if_neg, Bool.false_eq_true, ite_false]
      rw [if_neg (by simpa using hne1), digitsVal_natStr]
    · simp
  have harg3 : (if (if b3 then [] else (natStr v3).data).isEmpty then JsNum.posInf
      else .fin ((digitsVal (if b3 then [] else (natStr v3).data) : ℕ) : ℚ))
      = (if b3 then JsNum.posInf else .fin ((v3 : ℕ) : ℚ)) := by
    cases b3
    · have hne3 : (natStr v3).data ≠ [] := natStr_data_ne_nil v3
      simp only [if_neg, Bool.false_eq_true, ite_false]
      rw [if_neg (by simpa using hne3), digitsVal_natStr]
    · simp
  rw [harg1, harg3]

theorem fromString_ok_inversion (s : String) (r : RangeExpr)
    (h : RangeExpr.fromString s = .ok r) :
    ∃ g1 i g3, findMatch s.data = some (g1, i, g3)
      ∧ r = RangeExpr.make
          (if g1.isEmpty then .negInf else .fin ((digitsVal g1 : ℕ) : ℚ))
          (if g3.isEmpty then .posInf else .fin ((digitsVal g3 : ℕ) : ℚ)) i := by
  cases hm : findMatch s.data with
  | none =>
    unfold RangeExpr.fromString at h
    rw [hm] at h
    exact absurd h (by simp)
  | some g =>
    obtain ⟨g1, i, g3⟩ := g
    refine ⟨g1, i, g3, rfl, ?_⟩
    have he := fromString_eq_of_findMatch s g1 i g3 hm
    rw [he] at h
    exact (Except.ok.inj h).symm

/-- C7: parsing a matching literal and rendering the resulting range gives a
literal that parses back to the very same range — the canonical form preserves
the start bound, the user-facing end bound and the inclusivity of the
original literal. -/
theorem fromString_toString_roundTrip (s : String) (r : RangeExpr)
    (h : RangeExpr.fromString s = .ok r) :
    RangeExpr.fromString r.toString = .ok r := by
  obtain ⟨g1, i, g3, _, hr⟩ := fromString_ok_inversion s r h
  rw [hr]
  exact roundTrip_core g1.isEmpty g3.isEmpty (digitsVal g1) (digitsVal g3) i

theorem fromString_toString_roundTrip_witness :
    RangeExpr.fromString "1..=2" = .ok (RangeExpr.make (.fin (1:ℚ)) (.fin (2:ℚ)) true)
    ∧ RangeExpr.fromString ((RangeExpr.make (.fin (1:ℚ)) (.fin (2:ℚ)) true).toString)
        = .ok (RangeExpr.make (.fin (1:ℚ)) (.fin (2:ℚ)) true) :=
  ⟨by with_unfolding_all decide,
   fromString_toString_roundTrip "1..=2" _ (by with_unfolding_all decide)⟩
